import Mathlib

/-!
Verification development for the Georeferenciacion dashboard (src/app.py).

The pipeline under verification: load a mortality-record table and a boundary
collection, reconcile missing columns, aggregate records by municipality code,
derive a rate-per-mille, classify rates (quantiles / natural breaks), left-join
onto boundaries and render a choropleth figure.

Numeric modelling: pandas float columns are modelled by exact rationals
extended with the three IEEE non-finite shapes that the pipeline can produce:
a missing cell (NaN, modelled as `none : Option ERat`) and the two infinities
(`⊤` and `⊥` of `ERat`).  Division is the only operation that can produce a
non-finite value here, and it is modelled exactly (q / 0 is `⊤`, `⊥` or NaN by
the sign of q, as in IEEE arithmetic); finite arithmetic is exact rational
arithmetic, the accepted idealisation of float arithmetic for this spec.

Third-party library calls (pandas `groupby` / `merge` / `dropna`,
`mapclassify`, plotly) are not part of the repository.  The pandas operations
are embedded by their standard documented semantics.  The `mapclassify`
classifiers are modelled from the spec (see the individual doc comments),
since their source is not in the repository.
-/

/-- Extended rationals: `⊥` is `-inf`, `⊤` is `+inf`, everything else finite.
A full pandas float cell is `Option ERat`, with `none` playing NaN. -/
abbrev ERat : Type := WithBot (WithTop ℚ)

/-- Embed a finite rational into `ERat`. -/
def ERat.ofRat (q : ℚ) : ERat := ((q : WithTop ℚ) : ERat)

/-- IEEE-style division `n / d` on finite operands: finite quotient when
`d ≠ 0`; `±inf` by the sign of `n` when `d = 0, n ≠ 0`; NaN (`none`) for
`0 / 0`. -/
def ediv (n d : ℚ) : Option ERat :=
  if d = 0 then
    if n = 0 then none
    else if 0 < n then some ⊤ else some ⊥
  else some (ERat.ofRat (n / d))

/-- The rate expression `c / p * 1000` of app.py lines 48 and 267, under the
IEEE semantics above (`c / p * 1000 = (c * 1000) / p` exactly, including the
sign analysis of the `p = 0` cases). -/
def tasaOf (c p : ℚ) : Option ERat := ediv (c * 1000) p

/-- One normalized mortality record (a row of the global `df` of app.py after
the loader): municipality code, year, case count, population.  Columns not
used by any verified property are omitted. -/
structure Record where
  codigomunicipio : String
  ano : ℤ
  numerocasos : ℚ
  poblacion : ℚ
deriving DecidableEq

/-- One boundary feature of the `antioquia` collection (geometry is opaque to
every verified property and is omitted). -/
structure Boundary where
  mpio_cdpmp : String
  mpio_cnmbr : String
deriving DecidableEq

/-- One row of the aggregate `resumen` table (app.py lines 263-267). -/
structure RRow where
  codigomunicipio : String
  casos_totales : ℚ
  poblacion_total : ℚ
  tasa_x_mil : Option ERat
deriving DecidableEq

/-- Case-count sum of the group of `df` rows with code `c`
(pandas `groupby("codigomunicipio").agg(("numerocasos", "sum"))`). -/
def sumCasos (df : List Record) (c : String) : ℚ :=
  ((df.filter fun r => r.codigomunicipio = c).map (·.numerocasos)).sum

/-- Population sum of the group of `df` rows with code `c`. -/
def sumPobl (df : List Record) (c : String) : ℚ :=
  ((df.filter fun r => r.codigomunicipio = c).map (·.poblacion)).sum

/-- app.py lines 263-267 (same computation at module level, lines 44-48):
group `df` by municipality code, sum cases and population, recompute the
rate-per-mille.  `groupby` produces one row per distinct key; key order does
not matter to any verified property. -/
def resumen (df : List Record) : List RRow :=
  ((df.map (·.codigomunicipio)).dedup).map fun c =>
    { codigomunicipio := c
      casos_totales := sumCasos df c
      poblacion_total := sumPobl df c
      tasa_x_mil := tasaOf (sumCasos df c) (sumPobl df c) }

/-- One row of the merged `antioquia_data` frame (app.py lines 269-271).
`pandas.merge(..., how="left")` keeps both key columns; all right-hand
columns are NaN (`none`) on an unmatched left row. -/
structure JRow where
  mpio_cdpmp : String
  mpio_cnmbr : String
  codigomunicipio : Option String
  casos_totales : Option ℚ
  poblacion_total : Option ℚ
  tasa_x_mil : Option (Option ERat)
deriving DecidableEq

/-- The `tasa_x_mil` cell of a joined row as one pandas float cell: NaN both
when the whole right side is missing and when the aggregated rate itself is
NaN. -/
def JRow.tasa (j : JRow) : Option ERat := (j.tasa_x_mil).join

/-- A boundary row that found no aggregate match: every right-hand cell NaN. -/
def unmatchedRow (b : Boundary) : JRow :=
  { mpio_cdpmp := b.mpio_cdpmp, mpio_cnmbr := b.mpio_cnmbr,
    codigomunicipio := none, casos_totales := none,
    poblacion_total := none, tasa_x_mil := none }

/-- A boundary row paired with a matching aggregate row. -/
def matchedRow (b : Boundary) (r : RRow) : JRow :=
  { mpio_cdpmp := b.mpio_cdpmp, mpio_cnmbr := b.mpio_cnmbr,
    codigomunicipio := some r.codigomunicipio,
    casos_totales := some r.casos_totales,
    poblacion_total := some r.poblacion_total,
    tasa_x_mil := some r.tasa_x_mil }

/-- The joined rows one boundary feature contributes to a left merge. -/
def joinOne (res : List RRow) (b : Boundary) : List JRow :=
  match res.filter (fun r => r.codigomunicipio = b.mpio_cdpmp) with
  | [] => [unmatchedRow b]
  | ms => ms.map (matchedRow b)

/-- app.py lines 269-271: left merge of the boundary collection with the
aggregate table on `mpio_cdpmp = codigomunicipio`.  Modelled by the standard
pandas semantics: each left row is paired with every matching right row, and
a left row with no match is kept once with NaN right-hand cells. -/
def geoMerge (ant : List Boundary) (res : List RRow) : List JRow :=
  ant.flatMap (joinOne res)

/-- app.py line 278/282: `antioquia_data["tasa_x_mil"].dropna()`.  pandas
`dropna` removes NaN cells only; infinite cells survive. -/
def dropna (rows : List JRow) : List ERat := rows.filterMap (·.tasa)

example : tasaOf 150 150000 = some (ERat.ofRat 1) := by with_unfolding_all decide
example : tasaOf 1 0 = some ⊤ := by with_unfolding_all decide
example : tasaOf 0 0 = none := by with_unfolding_all decide
example :
    resumen [⟨"05001", 2005, 100, 100000⟩, ⟨"05001", 2006, 50, 50000⟩] =
      [⟨"05001", 150, 150000, some (ERat.ofRat 1)⟩] := by
  simp [resumen, sumCasos, sumPobl, tasaOf, ediv, List.dedup, List.insert, ERat.ofRat]
  norm_num

/-- Modelled from the spec: `mapclassify` bin lookup (`scheme.find_bin`),
whose source is not in the repository.  `bins` is the ascending list of bucket
upper bounds; a value is assigned the first bucket whose upper bound is at
least the value, and values above every bound are clipped into the last
bucket.  spec 3: the label is the bucket index, 0-based, ascending by rate. -/
def findBin : List ERat → ERat → ℕ
  | [], _ => 0
  | [_], _ => 0
  | b :: c :: bs, x => if x ≤ b then 0 else findBin (c :: bs) x + 1

/-- Modelled from the spec: `mapclassify.Quantiles(y, k=5)` (spec 4.3 and
glossary: partitioning a numeric sample into k equal-frequency buckets),
whose source is not in the repository.  The i-th bucket upper bound is the
ceiling-rank `(i+1)/5` quantile of the sorted sample. -/
def quantilesFit (ys : List ERat) : List ERat :=
  let s := ys.insertionSort (· ≤ ·)
  if s.length = 0 then []
  else (List.range 5).map fun i => s.getD (((i + 1) * s.length - 1) / 5) ⊥

/-- Extract the finite value of an `ERat`, if any. -/
def ERat.toRat? (x : ERat) : Option ℚ :=
  if x = ⊥ ∨ x = ⊤ then none else some ((x.unbot' ⊤).untop' 0)

/-- Sum of squared deviations from the mean of a finite sample (the
within-group variance numerator of the Jenks objective). -/
def ssd (g : List ℚ) : ℚ :=
  ((g.map fun x => (x - g.sum / g.length) ^ 2).sum)

/-- Cost of one contiguous group of the Jenks partition: its sum of squared
deviations when every member is finite, `⊤` when the group contains an
infinite value (a float variance over infinities is not a number). -/
def segCost (g : List ERat) : WithTop ℚ :=
  ((g.mapM ERat.toRat?).elim ⊤ fun qs => ((ssd qs : ℚ) : WithTop ℚ))

/-- All monotone 4-tuples of cut positions `0 ≤ c1 ≤ c2 ≤ c3 ≤ c4 ≤ n`
splitting a sorted sample of length `n` into 5 contiguous groups. -/
def cutTuples (n : ℕ) : List (ℕ × ℕ × ℕ × ℕ) :=
  ((List.range (n + 1)).flatMap fun c1 =>
    (List.range (n + 1)).flatMap fun c2 =>
      (List.range (n + 1)).flatMap fun c3 =>
        (List.range (n + 1)).map fun c4 => (c1, c2, c3, c4)).filter
    fun t => decide (t.1 ≤ t.2.1) && decide (t.2.1 ≤ t.2.2.1) &&
      decide (t.2.2.1 ≤ t.2.2.2)

/-- Jenks objective of a cut tuple over the sorted sample `s`: total
within-group sum of squared deviations of the 5 contiguous groups. -/
def jenksCost (s : List ERat) (t : ℕ × ℕ × ℕ × ℕ) : WithTop ℚ :=
  segCost (s.take t.1) + segCost ((s.drop t.1).take (t.2.1 - t.1)) +
    segCost ((s.drop t.2.1).take (t.2.2.1 - t.2.1)) +
    segCost ((s.drop t.2.2.1).take (t.2.2.2 - t.2.2.1)) +
    segCost (s.drop t.2.2.2)

/-- Bucket upper bound at cut position `c` over the sorted sample `s`: the
last element before the cut (the sample minimum for an initial empty group). -/
def cutBound (s : List ERat) (c : ℕ) : ERat := s.getD (c - 1) ⊥

/-- Modelled from the spec: `mapclassify.NaturalBreaks(y, k=5)` (spec 4.3 and
glossary: k buckets minimizing within-group variance, Jenks optimization),
whose source is not in the repository.  The fit sorts the sample and picks,
among all monotone cut tuples, one minimizing the total within-group sum of
squared deviations; the bins are the group upper bounds. -/
def jenksFit (ys : List ERat) : List ERat :=
  let s := ys.insertionSort (· ≤ ·)
  if s.length = 0 then []
  else
    match (cutTuples s.length).argmin (jenksCost s) with
    | none => []
    | some t =>
        [cutBound s t.1, cutBound s t.2.1, cutBound s t.2.2.1,
          cutBound s t.2.2.2, cutBound s s.length]

/-- app.py lines 276-284: the `clase` column.  `none` when `mapClass` selects
no discrete scheme (the column is never created); otherwise one cell per
joined row.  Modelled from the spec (spec 4.3): the scheme is fitted on the
`dropna` rates and a missing rate retains a null classification. -/
def classify (mapClass : String) (rows : List JRow) : Option (List (Option ℕ)) :=
  if mapClass = "quantiles" then
    some (rows.map fun r => r.tasa.map (findBin (quantilesFit (dropna rows))))
  else if mapClass = "jenks" then
    some (rows.map fun r => r.tasa.map (findBin (jenksFit (dropna rows))))
  else none

/-- The column the figure is colored by (app.py lines 276-284). -/
inductive ColorCol
  | tasa_x_mil
  | clase
deriving DecidableEq

/-- The color specification handed to the plotting call: a named continuous
scale (app.py line 299) or the sequential palette list looked up by name,
`getattr(px.colors.sequential, colorPalette)` (app.py line 310), identified
here by the looked-up attribute name. -/
inductive ColorSpec
  | continuousScale (name : String)
  | discreteSeq (name : String)
deriving DecidableEq

/-- The figure returned by `update_map` (app.py lines 290-318), keeping every
input of the two `px.choropleth_mapbox` calls and of `update_traces` that is
not a geometry. -/
structure Figure where
  rows : List JRow
  clase : Option (List (Option ℕ))
  colorCol : ColorCol
  colorSpec : ColorSpec
  mapboxStyle : String
  centerLat : ℚ
  centerLon : ℚ
  zoom : ℕ
  text : Option (List String)
  customdata : Option (List (Option ERat))
  hovertemplate : Option String
deriving DecidableEq

/-- The process-wide loaded tables: the global `df` and `antioquia` of
app.py lines 25-26. -/
structure AppState where
  df : List Record
  antioquia : List Boundary
deriving DecidableEq

/-- app.py lines 261-320, the `update_map` callback.  The state is threaded
explicitly: every step of the body derives a local value (`resumen`,
`antioquia_data`, the added `clase` column live on the freshly merged copy),
and the returned state is rebuilt from the globals the body read. -/
def updateMap (s : AppState) (colorPalette : String) (show_labels : List String)
    (mapClass : String) : AppState × Figure :=
  let res := resumen s.df
  let antioquia_data := geoMerge s.antioquia res
  let clase := classify mapClass antioquia_data
  let color_col : ColorCol :=
    if mapClass = "quantiles" ∨ mapClass = "jenks" then ColorCol.clase
    else ColorCol.tasa_x_mil
  let fig : Figure :=
    { rows := antioquia_data
      clase := clase
      colorCol := color_col
      colorSpec :=
        if mapClass = "continuous" then ColorSpec.continuousScale colorPalette
        else ColorSpec.discreteSeq colorPalette
      mapboxStyle := "carto-positron"
      centerLat := 13 / 2
      centerLon := -151 / 2
      zoom := 6
      text :=
        if "yes" ∈ show_labels then some (antioquia_data.map (·.mpio_cnmbr))
        else none
      customdata := some (antioquia_data.map (·.tasa))
      hovertemplate :=
        if "yes" ∈ show_labels then
          some "%\x7btext\x7d<br>Tasa: %\x7bcustomdata[0]:.2f\x7d"
        else none }
  ({ df := s.df, antioquia := s.antioquia }, fig)

/-- The three reconcilable columns of the raw record table as loaded
(app.py line 26 and the column normalization): each column is either absent
or a list of (finite) float cells, one per row. -/
structure RawCols where
  tasaxmilhabitantes : Option (List ℚ)
  poblacion : Option (List ℚ)
  numerocasos : Option (List ℚ)
deriving DecidableEq

/-- The same columns after the reconciliation step.  A filled cell can be
non-finite (division by a zero rate), so cells are full float cells here. -/
structure RecCols where
  tasaxmilhabitantes : Option (List ℚ)
  poblacion : Option (List (Option ERat))
  numerocasos : Option (List (Option ERat))
deriving DecidableEq

/-- Lift a column of finite values to a column of float cells. -/
def liftCol (l : List ℚ) : List (Option ERat) := l.map fun q => some (ERat.ofRat q)

/-- app.py lines 36-43, the missing-field reconciliation.  The two source
`if`s run in sequence, but they are mutually exclusive — the first requires
`poblacion` present and the second requires it absent, and the `numerocasos`
column the first one creates cannot re-enable the second — so a simultaneous
case split is equivalent.  Fills: `numerocasos = tasa * poblacion / 1000`
(line 39) and `poblacion = numerocasos * 1000 / tasa` (line 43, an IEEE
division that can produce non-finite cells when the rate is zero). -/
def reconcile (t : RawCols) : RecCols :=
  match t.tasaxmilhabitantes with
  | none =>
      { tasaxmilhabitantes := none
        poblacion := t.poblacion.map liftCol
        numerocasos := t.numerocasos.map liftCol }
  | some tasa =>
      match t.poblacion, t.numerocasos with
      | some pob, none =>
          { tasaxmilhabitantes := some tasa
            poblacion := some (liftCol pob)
            numerocasos :=
              some (List.zipWith (fun ta p => some (ERat.ofRat (ta * p / 1000))) tasa pob) }
      | none, some casos =>
          { tasaxmilhabitantes := some tasa
            poblacion := some (List.zipWith (fun c ta => ediv (c * 1000) ta) casos tasa)
            numerocasos := some (liftCol casos) }
      | pob, casos =>
          { tasaxmilhabitantes := some tasa
            poblacion := pob.map liftCol
            numerocasos := casos.map liftCol }

/-- Per-year aggregation of the records of one municipality code: for each
distinct year, the summed case count and summed population of that year
(the inner fold of the associativity property, spec 8). -/
def perYearTotals (df : List Record) (c : String) : List (ℤ × ℚ × ℚ) :=
  (((df.filter fun r => r.codigomunicipio = c).map (·.ano)).dedup).map fun y =>
    (y,
      (((df.filter fun r => r.codigomunicipio = c).filter fun r => r.ano = y).map
        (·.numerocasos)).sum,
      (((df.filter fun r => r.codigomunicipio = c).filter fun r => r.ano = y).map
        (·.poblacion)).sum)

/-- The bucket bounds the discrete branch of `update_map` fits on the
`dropna` rates (app.py lines 278 and 282). -/
def binsOf (mapClass : String) (rows : List JRow) : List ERat :=
  if mapClass = "quantiles" then quantilesFit (dropna rows)
  else jenksFit (dropna rows)

theorem classify_eq_of_discrete (m : String) (rows : List JRow)
    (hm : m = "quantiles" ∨ m = "jenks") :
    classify m rows = some (rows.map fun r => r.tasa.map (findBin (binsOf m rows))) := by
  rcases hm with hm | hm <;> subst hm <;> simp [classify, binsOf]

theorem findBin_lt_length :
    ∀ (bins : List ERat) (x : ERat), bins ≠ [] → findBin bins x < bins.length
  | [], _, h => absurd rfl h
  | [_], _, _ => by simp [findBin]
  | b :: c :: bs, x, _ => by
    rw [findBin]
    split
    · simp
    · have ih := findBin_lt_length (c :: bs) x (by simp)
      simpa [Nat.succ_lt_succ_iff] using ih

theorem findBin_mono :
    ∀ (bins : List ERat) {x y : ERat}, x ≤ y → findBin bins x ≤ findBin bins y
  | [], _, _, _ => le_refl _
  | [_], _, _, _ => le_refl _
  | b :: c :: bs, x, y, hxy => by
    rw [findBin, findBin]
    by_cases hy : y ≤ b
    · simp [le_trans hxy hy, hy]
    · by_cases hx : x ≤ b
      · simp [hx, hy]
      · simpa [hx, hy, Nat.succ_le_succ_iff] using findBin_mono (c :: bs) hxy

theorem filter_key_eq_nil {α β : Type} [DecidableEq β] {f : α → β} {c : β}
    {l : List α} (h : c ∉ l.map f) : l.filter (fun a => f a = c) = [] := by
  rw [List.filter_eq_nil_iff]
  intro a ha hfa
  exact h (List.mem_map.mpr ⟨a, ha, by simpa using hfa⟩)

theorem length_filter_key {α β : Type} [DecidableEq β] (f : α → β) (c : β) :
    ∀ (l : List α), (l.map f).Nodup → c ∈ l.map f →
      (l.filter fun a => f a = c).length = 1
  | [], _, hmem => by simp at hmem
  | a :: l, hnd, hmem => by
    simp only [List.map_cons, List.nodup_cons] at hnd
    by_cases hac : f a = c
    · have hrest : l.filter (fun x => f x = c) = [] :=
        filter_key_eq_nil (by rw [← hac]; exact hnd.1)
      simp [List.filter_cons, hac, hrest]
    · have hmem' : c ∈ l.map f := by
        rcases List.mem_cons.mp hmem with h | h
        · exact absurd h.symm hac
        · exact h
      simp [List.filter_cons, hac, length_filter_key f c l hnd.2 hmem']

theorem resumen_map_codigo (df : List Record) :
    (resumen df).map (·.codigomunicipio) = (df.map (·.codigomunicipio)).dedup := by
  simp [resumen, List.map_map]
  exact List.map_id _

theorem resumen_codigo_nodup (df : List Record) :
    ((resumen df).map (·.codigomunicipio)).Nodup := by
  rw [resumen_map_codigo]; exact List.nodup_dedup _

theorem mem_resumen_self (df : List Record) (c : String)
    (h : c ∈ df.map (·.codigomunicipio)) :
    ({ codigomunicipio := c, casos_totales := sumCasos df c,
       poblacion_total := sumPobl df c,
       tasa_x_mil := tasaOf (sumCasos df c) (sumPobl df c) } : RRow) ∈ resumen df :=
  List.mem_map.mpr ⟨c, List.mem_dedup.mpr h, rfl⟩

theorem resumen_row_eq (df : List Record) (r : RRow) (hr : r ∈ resumen df) :
    r.casos_totales = sumCasos df r.codigomunicipio ∧
    r.poblacion_total = sumPobl df r.codigomunicipio ∧
    r.tasa_x_mil = tasaOf (sumCasos df r.codigomunicipio) (sumPobl df r.codigomunicipio) ∧
    r.codigomunicipio ∈ df.map (·.codigomunicipio) := by
  rcases List.mem_map.mp hr with ⟨c, hc, rfl⟩
  exact ⟨rfl, rfl, rfl, List.mem_dedup.mp hc⟩

theorem joinOne_unmatched (res : List RRow) (b : Boundary)
    (h : b.mpio_cdpmp ∉ res.map (·.codigomunicipio)) :
    joinOne res b = [unmatchedRow b] := by
  unfold joinOne
  rw [filter_key_eq_nil h]

theorem joinOne_length (res : List RRow) (b : Boundary)
    (hnd : (res.map (·.codigomunicipio)).Nodup) : (joinOne res b).length = 1 := by
  unfold joinOne
  cases hf : res.filter (fun r => r.codigomunicipio = b.mpio_cdpmp) with
  | nil => simp
  | cons r ms =>
    have hr : r ∈ res.filter (fun r => r.codigomunicipio = b.mpio_cdpmp) := by
      rw [hf]; exact List.mem_cons_self r ms
    have hr' := List.mem_filter.mp hr
    have hcode : b.mpio_cdpmp ∈ res.map (·.codigomunicipio) :=
      List.mem_map.mpr ⟨r, hr'.1, by simpa using hr'.2⟩
    have hlen := length_filter_key (·.codigomunicipio) b.mpio_cdpmp res hnd hcode
    rw [hf] at hlen
    simpa using hlen

theorem geoMerge_length (ant : List Boundary) (res : List RRow)
    (hnd : (res.map (·.codigomunicipio)).Nodup) :
    (geoMerge ant res).length = ant.length := by
  induction ant with
  | nil => rfl
  | cons b t ih =>
    unfold geoMerge at ih ⊢
    rw [List.flatMap_cons, List.length_append, ih, joinOne_length res b hnd,
      List.length_cons, Nat.add_comm]

theorem geoMerge_unmatched_mem (ant : List Boundary) (res : List RRow) (b : Boundary)
    (hb : b ∈ ant) (h : b.mpio_cdpmp ∉ res.map (·.codigomunicipio)) :
    unmatchedRow b ∈ geoMerge ant res :=
  List.mem_flatMap.mpr ⟨b, hb, by rw [joinOne_unmatched res b h]; simp⟩

theorem sum_map_filter_split {α : Type} (p : α → Prop) [DecidablePred p] (g : α → ℚ) :
    ∀ l : List α,
      (l.map g).sum =
        ((l.filter fun a => p a).map g).sum + ((l.filter fun a => ¬ p a).map g).sum
  | [] => by simp
  | a :: l => by
    by_cases h : p a <;>
      simp [List.filter_cons, h, sum_map_filter_split p g l] <;> ring

theorem sum_fibers_key {α β : Type} [DecidableEq β] (f : α → β) (g : α → ℚ) :
    ∀ (K : List β) (l : List α), K.Nodup → (∀ a ∈ l, f a ∈ K) →
      (K.map fun y => ((l.filter fun a => f a = y).map g).sum).sum = (l.map g).sum
  | [], l, _, hcov => by
    have hl : l = [] :=
      List.eq_nil_iff_forall_not_mem.mpr fun a ha => by simpa using hcov a ha
    simp [hl]
  | y :: K, l, hnd, hcov => by
    rw [List.map_cons, List.sum_cons, List.nodup_cons] at *
    have hfib : ∀ y' ∈ K,
        ((l.filter fun a => f a = y').map g).sum =
          (((l.filter fun a => ¬ f a = y).filter fun a => f a = y').map g).sum := by
      intro y' hy'
      have hyy : y' ≠ y := fun h => hnd.1 (h ▸ hy')
      rw [List.filter_filter]
      congr 2
      apply List.filter_congr
      intro a _
      by_cases h : f a = y' <;> simp [h, hyy]
    have hcov' : ∀ a ∈ l.filter fun a => ¬ f a = y, f a ∈ K := by
      intro a ha
      have hmf := List.mem_filter.mp ha
      have h2 : ¬ f a = y := by simpa using hmf.2
      rcases List.mem_cons.mp (hcov a hmf.1) with h | h
      · exact absurd h h2
      · exact h
    have ih := sum_fibers_key f g K (l.filter fun a => ¬ f a = y) hnd.2 hcov'
    have hmap : (K.map fun y' => ((l.filter fun a => f a = y').map g).sum) =
        K.map fun y' =>
          (((l.filter fun a => ¬ f a = y).filter fun a => f a = y').map g).sum :=
      List.map_congr_left fun y' hy' => hfib y' hy'
    rw [hmap, ih, ← sum_map_filter_split (fun a => f a = y) g l]

theorem perYear_sum_casos (df : List Record) (c : String) :
    ((perYearTotals df c).map fun t => t.2.1).sum = sumCasos df c := by
  unfold perYearTotals sumCasos
  rw [List.map_map]
  exact sum_fibers_key (fun r : Record => r.ano) (fun r : Record => r.numerocasos) _ _
    (List.nodup_dedup _)
    (fun a ha => List.mem_dedup.mpr (List.mem_map.mpr ⟨a, ha, rfl⟩))

theorem sorted_getD_mono {l : List ERat} (hs : l.Sorted (· ≤ ·)) {i j : ℕ}
    (hij : i ≤ j) (hj : j < l.length) : l.getD i ⊥ ≤ l.getD j ⊥ := by
  have hi : i < l.length := Nat.lt_of_le_of_lt hij hj
  rw [List.getD_eq_getElem l ⊥ hi, List.getD_eq_getElem l ⊥ hj]
  rcases lt_or_eq_of_le hij with h | h
  · have := List.pairwise_iff_get.mp hs ⟨i, hi⟩ ⟨j, hj⟩ h
    simpa using this
  · subst h
    exact le_refl _

theorem quantilesFit_length (ys : List ERat) (h : ys ≠ []) :
    (quantilesFit ys).length = 5 := by
  have h0 : (ys.insertionSort (· ≤ ·)).length ≠ 0 := by
    rw [List.length_insertionSort]
    exact fun hh => h (List.length_eq_zero.mp hh)
  simp only [quantilesFit]
  rw [if_neg h0]
  simp

theorem quantilesFit_sorted (ys : List ERat) : (quantilesFit ys).Chain' (· ≤ ·) := by
  have hsort : (ys.insertionSort (· ≤ ·)).Sorted (· ≤ ·) :=
    List.sorted_insertionSort _ _
  simp only [quantilesFit]
  by_cases h0 : (ys.insertionSort (· ≤ ·)).length = 0
  · simp [h0]
  · have hn : 0 < (ys.insertionSort (· ≤ ·)).length := Nat.pos_of_ne_zero h0
    rw [if_neg h0, show List.range 5 = [0, 1, 2, 3, 4] from rfl]
    simp only [List.map_cons, List.map_nil, List.chain'_cons, List.chain'_singleton,
      and_true]
    refine ⟨?_, ?_, ?_, ?_⟩ <;>
      · apply sorted_getD_mono hsort
        · exact Nat.div_le_div_right (by omega)
        · rw [Nat.div_lt_iff_lt_mul (by norm_num)]
          omega

theorem mem_cutTuples (n : ℕ) (t : ℕ × ℕ × ℕ × ℕ) (ht : t ∈ cutTuples n) :
    t.1 ≤ t.2.1 ∧ t.2.1 ≤ t.2.2.1 ∧ t.2.2.1 ≤ t.2.2.2 ∧ t.2.2.2 ≤ n := by
  unfold cutTuples at ht
  have h1 := List.mem_filter.mp ht
  have hb := h1.2
  simp only [Bool.and_eq_true, decide_eq_true_eq] at hb
  have hm := h1.1
  simp only [List.mem_flatMap, List.mem_map, List.mem_range] at hm
  obtain ⟨c1, _, c2, _, c3, _, c4, hc4, heq⟩ := hm
  refine ⟨hb.1.1, hb.1.2, hb.2, ?_⟩
  rw [← heq]
  exact Nat.lt_succ_iff.mp hc4

theorem cutTuples_ne_nil (n : ℕ) : cutTuples n ≠ [] := by
  have hmem : ((0, 0, 0, 0) : ℕ × ℕ × ℕ × ℕ) ∈ cutTuples n := by
    unfold cutTuples
    rw [List.mem_filter]
    constructor
    · simp only [List.mem_flatMap, List.mem_map, List.mem_range]
      exact ⟨0, Nat.succ_pos n, 0, Nat.succ_pos n, 0, Nat.succ_pos n, 0, Nat.succ_pos n,
        rfl⟩
    · simp
  exact List.ne_nil_of_mem hmem

theorem jenksFit_length (ys : List ERat) (h : ys ≠ []) : (jenksFit ys).length = 5 := by
  have h0 : (ys.insertionSort (· ≤ ·)).length ≠ 0 := by
    rw [List.length_insertionSort]
    exact fun hh => h (List.length_eq_zero.mp hh)
  simp only [jenksFit]
  rw [if_neg h0]
  cases hargmin : (cutTuples (ys.insertionSort (· ≤ ·)).length).argmin
      (jenksCost (ys.insertionSort (· ≤ ·))) with
  | none => exact absurd (List.argmin_eq_none.mp hargmin) (cutTuples_ne_nil _)
  | some t => simp

theorem jenksFit_sorted (ys : List ERat) : (jenksFit ys).Chain' (· ≤ ·) := by
  have hsort : (ys.insertionSort (· ≤ ·)).Sorted (· ≤ ·) :=
    List.sorted_insertionSort _ _
  simp only [jenksFit]
  by_cases h0 : (ys.insertionSort (· ≤ ·)).length = 0
  · simp [h0]
  · have hn : 0 < (ys.insertionSort (· ≤ ·)).length := Nat.pos_of_ne_zero h0
    rw [if_neg h0]
    cases hargmin : (cutTuples (ys.insertionSort (· ≤ ·)).length).argmin
        (jenksCost (ys.insertionSort (· ≤ ·))) with
    | none => simp
    | some t =>
      have hb := mem_cutTuples _ t (List.argmin_mem hargmin)
      simp only [List.chain'_cons, List.chain'_singleton, and_true, cutBound]
      refine ⟨?_, ?_, ?_, ?_⟩ <;>
        · apply sorted_getD_mono hsort
          · omega
          · omega

theorem perYear_sum_pobl (df : List Record) (c : String) :
    ((perYearTotals df c).map fun t => t.2.2).sum = sumPobl df c := by
  unfold perYearTotals sumPobl
  rw [List.map_map]
  exact sum_fibers_key (fun r : Record => r.ano) (fun r : Record => r.poblacion) _ _
    (List.nodup_dedup _)
    (fun a ha => List.mem_dedup.mpr (List.mem_map.mpr ⟨a, ha, rfl⟩))

theorem binsOf_length (m : String) (rows : List JRow) (h : dropna rows ≠ []) :
    (binsOf m rows).length = 5 := by
  unfold binsOf
  split
  · exact quantilesFit_length _ h
  · exact jenksFit_length _ h

theorem binsOf_sorted (m : String) (rows : List JRow) :
    (binsOf m rows).Chain' (· ≤ ·) := by
  unfold binsOf
  split
  · exact quantilesFit_sorted _
  · exact jenksFit_sorted _

theorem updateMap_rows_eq (s : AppState) (p : String) (lb : List String) (m : String) :
    (updateMap s p lb m).2.rows = geoMerge s.antioquia (resumen s.df) := rfl

theorem updateMap_clase_eq (s : AppState) (p : String) (lb : List String) (m : String) :
    (updateMap s p lb m).2.clase = classify m (geoMerge s.antioquia (resumen s.df)) := rfl

/-- C1: the geo join performed by `update_map` is a left join on the boundary
code: the joined result has exactly one feature per boundary
(`|joined| = |boundaries|`), and every boundary whose code has no matching
aggregate row is retained with null metric fields. -/
theorem geo_join_left_one_feature_per_boundary (s : AppState) (p : String)
    (lb : List String) (m : String) :
    (updateMap s p lb m).2.rows.length = s.antioquia.length ∧
    ∀ b ∈ s.antioquia, b.mpio_cdpmp ∉ s.df.map (·.codigomunicipio) →
      unmatchedRow b ∈ (updateMap s p lb m).2.rows ∧
      (unmatchedRow b).casos_totales = none ∧
      (unmatchedRow b).poblacion_total = none ∧
      (unmatchedRow b).tasa = none := by
  rw [updateMap_rows_eq]
  refine ⟨geoMerge_length _ _ (resumen_codigo_nodup s.df), fun b hb hnm => ?_⟩
  have h' : b.mpio_cdpmp ∉ (resumen s.df).map (·.codigomunicipio) := by
    rw [resumen_map_codigo]
    simpa [List.mem_dedup] using hnm
  exact ⟨geoMerge_unmatched_mem _ _ b hb h', rfl, rfl, rfl⟩

theorem geo_join_left_one_feature_per_boundary_witness :
    (updateMap ⟨[], [⟨"05002", "X"⟩]⟩ "Viridis" [] "continuous").2.rows.length = 1 ∧
    unmatchedRow ⟨"05002", "X"⟩ ∈
      (updateMap ⟨[], [⟨"05002", "X"⟩]⟩ "Viridis" [] "continuous").2.rows := by
  have h := geo_join_left_one_feature_per_boundary ⟨[], [⟨"05002", "X"⟩]⟩ "Viridis" []
    "continuous"
  exact ⟨h.1, (h.2 ⟨"05002", "X"⟩ (by simp) (by simp)).1⟩

/-- C2: the aggregator produces exactly one row per municipality code, with
summed cases, summed population and the recomputed rate-per-mille, and the
two records with code 05001, cases 100/population 100000 and cases
50/population 50000 aggregate to 150 cases, 150000 population, rate 1. -/
theorem resumen_one_row_per_code (df : List Record) (c : String)
    (h : c ∈ df.map (·.codigomunicipio)) :
    ((resumen df).filter fun r => r.codigomunicipio = c).length = 1 ∧
    (∀ r ∈ resumen df, r.codigomunicipio = c →
      r.casos_totales = sumCasos df c ∧ r.poblacion_total = sumPobl df c ∧
      r.tasa_x_mil = tasaOf (sumCasos df c) (sumPobl df c)) ∧
    resumen [⟨"05001", 2005, 100, 100000⟩, ⟨"05001", 2006, 50, 50000⟩] =
      [⟨"05001", 150, 150000, some (ERat.ofRat 1)⟩] := by
  refine ⟨?_, ?_, ?_⟩
  · exact length_filter_key (fun r : RRow => r.codigomunicipio) c (resumen df)
      (resumen_codigo_nodup df) (by rw [resumen_map_codigo]; exact List.mem_dedup.mpr h)
  · intro r hr hc
    have he := resumen_row_eq df r hr
    rw [← hc]
    exact ⟨he.1, he.2.1, he.2.2.1⟩
  · simp [resumen, sumCasos, sumPobl, tasaOf, ediv, List.dedup, List.insert, ERat.ofRat]
    norm_num

theorem resumen_one_row_per_code_witness :
    ((resumen [⟨"05001", 2005, 100, 100000⟩, ⟨"05001", 2006, 50, 50000⟩]).filter
        fun r => r.codigomunicipio = "05001").length = 1 := by
  have h := resumen_one_row_per_code
    [⟨"05001", 2005, 100, 100000⟩, ⟨"05001", 2006, 50, 50000⟩] "05001" (by simp)
  exact h.1

/-- C7: aggregation is associative with respect to partitioning by year: for
every municipality code, summing the per-year case and population totals
yields the same totals, and hence the same rate-per-mille, as aggregating all
of that code's records in one pass. -/
theorem aggregation_per_year_assoc (df : List Record) (c : String) :
    ((perYearTotals df c).map fun t => t.2.1).sum = sumCasos df c ∧
    ((perYearTotals df c).map fun t => t.2.2).sum = sumPobl df c ∧
    tasaOf (((perYearTotals df c).map fun t => t.2.1).sum)
        (((perYearTotals df c).map fun t => t.2.2).sum) =
      tasaOf (sumCasos df c) (sumPobl df c) := by
  refine ⟨perYear_sum_casos df c, perYear_sum_pobl df c, ?_⟩
  rw [perYear_sum_casos, perYear_sum_pobl]

/-- C9: every invocation of `update_map` leaves the process-wide loaded
tables unchanged: after any call, with any palette, label flag and
classification mode, the global tables equal their values before the call. -/
theorem updateMap_frame (s : AppState) (p : String) (lb : List String) (m : String) :
    (updateMap s p lb m).1 = s := by
  cases s
  rfl

/-- C10: `update_map` is deterministic: with the loaded tables fixed, a
second call with the same palette, label flag and classification mode
(including the jenks mode, whose fit is modelled from the spec as the exact
variance-minimizing partition) returns a figure equal to the first. -/
theorem updateMap_deterministic (s : AppState) (p : String) (lb : List String)
    (m : String) :
    (updateMap ((updateMap s p lb m).1) p lb m).2 = (updateMap s p lb m).2 := by
  have h : (updateMap s p lb m).1 = s := by cases s; rfl
  rw [h]

/-- C8 counterexample: in a discrete mode the figure's palette is not a fixed
qualitative palette — it is the sequential palette looked up by the selected
palette name, so it changes with the palette dropdown. -/
theorem renderer_palette_counterexample :
    (updateMap ⟨[], []⟩ "Reds" [] "jenks").2.colorSpec = ColorSpec.discreteSeq "Reds" ∧
    (updateMap ⟨[], []⟩ "Blues" [] "jenks").2.colorSpec =
      ColorSpec.discreteSeq "Blues" ∧
    (updateMap ⟨[], []⟩ "Reds" [] "jenks").2.colorSpec ≠
      (updateMap ⟨[], []⟩ "Blues" [] "jenks").2.colorSpec := by
  refine ⟨by simp [updateMap], by simp [updateMap], ?_⟩
  simp [updateMap]

/-- C8 (amended): continuous mode colors features by the raw rate on the
continuous color scale selected by the palette name; the discrete modes color
features by the class index using the sequential palette looked up by the
palette name (`getattr(px.colors.sequential, colorPalette)`), not a fixed
qualitative palette. -/
theorem renderer_color_modes (s : AppState) (p : String) (lb : List String)
    (m : String) :
    (m = "continuous" →
      (updateMap s p lb m).2.colorCol = ColorCol.tasa_x_mil ∧
      (updateMap s p lb m).2.colorSpec = ColorSpec.continuousScale p) ∧
    ((m = "quantiles" ∨ m = "jenks") →
      (updateMap s p lb m).2.colorCol = ColorCol.clase ∧
      (updateMap s p lb m).2.colorSpec = ColorSpec.discreteSeq p) := by
  constructor
  · rintro rfl
    constructor <;> simp [updateMap]
  · rintro (rfl | rfl) <;> constructor <;> simp [updateMap]

theorem renderer_color_modes_witness :
    ((updateMap ⟨[], []⟩ "Viridis" [] "continuous").2.colorSpec =
        ColorSpec.continuousScale "Viridis" ∧
      (updateMap ⟨[], []⟩ "Viridis" [] "continuous").2.colorCol =
        ColorCol.tasa_x_mil) ∧
    ((updateMap ⟨[], []⟩ "Viridis" [] "quantiles").2.colorSpec =
        ColorSpec.discreteSeq "Viridis" ∧
      (updateMap ⟨[], []⟩ "Viridis" [] "quantiles").2.colorCol = ColorCol.clase) := by
  have h1 := (renderer_color_modes ⟨[], []⟩ "Viridis" [] "continuous").1 rfl
  have h2 := (renderer_color_modes ⟨[], []⟩ "Viridis" [] "quantiles").2 (Or.inl rfl)
  exact ⟨⟨h1.2, h1.1⟩, ⟨h2.2, h2.1⟩⟩

/-- C5 counterexample: with the rate column `[2]`, the population column
`[0]` and no case-count column, the loader fills the case count as
`2 * 0 / 1000 = 0`, and the claimed identity `rate = cases / population *
1000` fails on that row: `0 / 0 * 1000` is NaN, not the rate 2. -/
theorem reconcile_identity_counterexample :
    (reconcile ⟨some [2], some [0], none⟩).numerocasos =
        some [some (ERat.ofRat 0)] ∧
    tasaOf 0 0 = none ∧ (none : Option ERat) ≠ some (ERat.ofRat 2) := by
  refine ⟨?_, by with_unfolding_all decide, by with_unfolding_all decide⟩
  show some (List.zipWith (fun ta p => some (ERat.ofRat (ta * p / 1000))) [2] [0]) =
    some [some (ERat.ofRat 0)]
  with_unfolding_all decide

/-- C5 (amended): with the rate column present, the loader fills an absent
case-count column as `rate * population / 1000` row by row, and an absent
population column as `case count * 1000 / rate` row by row; the identity
`rate = cases / population * 1000` holds for every filled row whose
population is nonzero. -/
theorem reconcile_fills (t : RawCols) :
    (∀ tasa pob, t.tasaxmilhabitantes = some tasa → t.poblacion = some pob →
      t.numerocasos = none →
      (reconcile t).numerocasos =
          some (List.zipWith (fun ta p => some (ERat.ofRat (ta * p / 1000))) tasa pob) ∧
        ∀ ta p : ℚ, p ≠ 0 → tasaOf (ta * p / 1000) p = some (ERat.ofRat ta)) ∧
    (∀ tasa casos, t.tasaxmilhabitantes = some tasa → t.numerocasos = some casos →
      t.poblacion = none →
      (reconcile t).poblacion =
        some (List.zipWith (fun cas ta => ediv (cas * 1000) ta) casos tasa)) := by
  obtain ⟨ta?, po?, ca?⟩ := t
  constructor
  · rintro tasa pob rfl rfl rfl
    refine ⟨rfl, fun ta p hp => ?_⟩
    unfold tasaOf ediv
    rw [if_neg hp]
    congr 1
    unfold ERat.ofRat
    congr 1
    field_simp
  · rintro tasa casos rfl rfl rfl
    rfl

theorem reconcile_fills_witness :
    (reconcile ⟨some [5], some [2000], none⟩).numerocasos =
        some [some (ERat.ofRat 10)] ∧
    tasaOf (5 * 2000 / 1000) 2000 = some (ERat.ofRat 5) ∧
    (reconcile ⟨some [4], none, some [8]⟩).poblacion =
        some [ediv (8 * 1000) 4] := by
  have h1 := (reconcile_fills ⟨some [5], some [2000], none⟩).1 [5] [2000] rfl rfl rfl
  have h2 := (reconcile_fills ⟨some [4], none, some [8]⟩).2 [4] [8] rfl rfl rfl
  refine ⟨?_, h1.2 5 2000 (by norm_num), h2⟩
  rw [h1.1]
  with_unfolding_all decide

/-- C3: for both discrete schemes with k = 5, the scheme of `update_map` is
fitted on the non-missing rates, every non-missing rate receives exactly one
0-based class index below 5 out of 5 contiguous ascending (sorted) buckets,
and the assignment is monotone: a smaller rate never gets a larger class. -/
theorem classify_monotone_buckets (rows : List JRow) (m : String)
    (hm : m = "quantiles" ∨ m = "jenks") (i j : ℕ) (ri rj : JRow) (x y : ERat)
    (hi : rows[i]? = some ri) (hj : rows[j]? = some rj)
    (hx : ri.tasa = some x) (hy : rj.tasa = some y) (hxy : x ≤ y) :
    ∃ cl, classify m rows = some cl ∧
      cl[i]? = some (some (findBin (binsOf m rows) x)) ∧
      cl[j]? = some (some (findBin (binsOf m rows) y)) ∧
      findBin (binsOf m rows) x ≤ findBin (binsOf m rows) y ∧
      findBin (binsOf m rows) x < 5 ∧ findBin (binsOf m rows) y < 5 ∧
      (binsOf m rows).length = 5 ∧ (binsOf m rows).Chain' (· ≤ ·) := by
  have hmemi : ri ∈ rows := List.getElem?_mem hi
  have hxmem : x ∈ dropna rows := List.mem_filterMap.mpr ⟨ri, hmemi, hx⟩
  have hne : dropna rows ≠ [] := List.ne_nil_of_mem hxmem
  have hlen := binsOf_length m rows hne
  have hbne : binsOf m rows ≠ [] := by
    intro hh
    rw [hh] at hlen
    simp at hlen
  refine ⟨rows.map fun r => r.tasa.map (findBin (binsOf m rows)),
    classify_eq_of_discrete m rows hm, ?_, ?_, findBin_mono _ hxy,
    by rw [← hlen]; exact findBin_lt_length _ x hbne,
    by rw [← hlen]; exact findBin_lt_length _ y hbne, hlen, binsOf_sorted m rows⟩
  · rw [List.getElem?_map, hi]
    simp [hx]
  · rw [List.getElem?_map, hj]
    simp [hy]

/-- C4: in both discrete modes, a joined row with a missing rate is excluded
from the scheme-fitting domain (the `dropna` values all come from rows with a
present rate), its `clase` cell is null, and the row still appears among the
features of the rendered figure. -/
theorem updateMap_missing_rate_null_class (s : AppState) (p : String)
    (lb : List String) (m : String) (hm : m = "quantiles" ∨ m = "jenks")
    (i : ℕ) (ri : JRow) (hi : (updateMap s p lb m).2.rows[i]? = some ri)
    (hmiss : ri.tasa = none) :
    ∃ cl, (updateMap s p lb m).2.clase = some cl ∧ cl[i]? = some none ∧
      ri ∈ (updateMap s p lb m).2.rows ∧
      ∀ x ∈ dropna (updateMap s p lb m).2.rows,
        ∃ r, r ∈ (updateMap s p lb m).2.rows ∧ r.tasa = some x := by
  rw [updateMap_rows_eq] at hi
  rw [updateMap_rows_eq, updateMap_clase_eq]
  refine ⟨_, classify_eq_of_discrete m _ hm, ?_, List.getElem?_mem hi, ?_⟩
  · rw [List.getElem?_map, hi]
    simp [hmiss]
  · intro x hx
    exact List.mem_filterMap.mp hx

/-- C6 counterexample: a municipality with one case and zero population gets
the rate `+inf`, which is not treated like a null rate — it survives
`dropna`, enters the quantile fit and receives class 0, not a missing class. -/
theorem zero_population_counterexample :
    ((updateMap ⟨[⟨"Z", 2005, 1, 0⟩], [⟨"Z", "Zn"⟩]⟩ "Viridis" [] "quantiles").2.rows.map
        (·.tasa)) = [some ⊤] ∧
    (updateMap ⟨[⟨"Z", 2005, 1, 0⟩], [⟨"Z", "Zn"⟩]⟩ "Viridis" [] "quantiles").2.clase =
      some [some 0] ∧ (some (0 : ℕ) : Option ℕ) ≠ none := by
  refine ⟨?_, ?_, by simp⟩ <;> with_unfolding_all decide

/-- C6 (amended): a zero aggregated population never raises: the rate is NaN
(missing) when the aggregated case count is zero, and `+inf` when it is
positive; a `+inf` rate survives `dropna`, participates in the scheme fit and
is assigned a class index rather than a null classification. -/
theorem zero_population_rate (df : List Record) (r : RRow) (hr : r ∈ resumen df)
    (hp : r.poblacion_total = 0) :
    (r.casos_totales = 0 → r.tasa_x_mil = none) ∧
    (0 < r.casos_totales → r.tasa_x_mil = some ⊤) ∧
    (∀ rows : List JRow, ∀ m : String, (m = "quantiles" ∨ m = "jenks") →
      ∀ (i : ℕ) (ri : JRow), rows[i]? = some ri → ri.tasa = some ⊤ →
        ∃ cl, classify m rows = some cl ∧
          cl[i]? = some (some (findBin (binsOf m rows) ⊤)) ∧
          (⊤ : ERat) ∈ dropna rows) := by
  have he := resumen_row_eq df r hr
  have ht : r.tasa_x_mil = tasaOf r.casos_totales r.poblacion_total := by
    rw [he.1, he.2.1]
    exact he.2.2.1
  refine ⟨?_, ?_, ?_⟩
  · intro h0
    rw [ht, hp, h0]
    with_unfolding_all decide
  · intro hpos
    rw [ht, hp]
    unfold tasaOf ediv
    rw [if_pos rfl]
    have hpos' : 0 < r.casos_totales * 1000 := by
      exact mul_pos hpos (by norm_num)
    rw [if_neg (ne_of_gt hpos'), if_pos hpos']
  · intro rows m hm i ri hi hti
    have hmem : ri ∈ rows := List.getElem?_mem hi
    have hdm : (⊤ : ERat) ∈ dropna rows := List.mem_filterMap.mpr ⟨ri, hmem, hti⟩
    refine ⟨_, classify_eq_of_discrete m rows hm, ?_, hdm⟩
    rw [List.getElem?_map, hi]
    simp [hti]

theorem classify_monotone_buckets_witness :
    ∃ cl,
      classify "quantiles"
          [⟨"A", "An", some "A", some 1, some 1000, some (some (ERat.ofRat 1))⟩,
            ⟨"B", "Bn", some "B", some 2, some 1000, some (some (ERat.ofRat 2))⟩] =
        some cl ∧
      cl[0]? = some (some (findBin
        (binsOf "quantiles"
          [⟨"A", "An", some "A", some 1, some 1000, some (some (ERat.ofRat 1))⟩,
            ⟨"B", "Bn", some "B", some 2, some 1000, some (some (ERat.ofRat 2))⟩])
        (ERat.ofRat 1))) ∧
      cl[1]? = some (some (findBin
        (binsOf "quantiles"
          [⟨"A", "An", some "A", some 1, some 1000, some (some (ERat.ofRat 1))⟩,
            ⟨"B", "Bn", some "B", some 2, some 1000, some (some (ERat.ofRat 2))⟩])
        (ERat.ofRat 2))) ∧
      findBin
          (binsOf "quantiles"
            [⟨"A", "An", some "A", some 1, some 1000, some (some (ERat.ofRat 1))⟩,
              ⟨"B", "Bn", some "B", some 2, some 1000, some (some (ERat.ofRat 2))⟩])
          (ERat.ofRat 1) ≤
        findBin
          (binsOf "quantiles"
            [⟨"A", "An", some "A", some 1, some 1000, some (some (ERat.ofRat 1))⟩,
              ⟨"B", "Bn", some "B", some 2, some 1000, some (some (ERat.ofRat 2))⟩])
          (ERat.ofRat 2) ∧
      findBin
          (binsOf "quantiles"
            [⟨"A", "An", some "A", some 1, some 1000, some (some (ERat.ofRat 1))⟩,
              ⟨"B", "Bn", some "B", some 2, some 1000, some (some (ERat.ofRat 2))⟩])
          (ERat.ofRat 1) < 5 ∧
      findBin
          (binsOf "quantiles"
            [⟨"A", "An", some "A", some 1, some 1000, some (some (ERat.ofRat 1))⟩,
              ⟨"B", "Bn", some "B", some 2, some 1000, some (some (ERat.ofRat 2))⟩])
          (ERat.ofRat 2) < 5 ∧
      (binsOf "quantiles"
          [⟨"A", "An", some "A", some 1, some 1000, some (some (ERat.ofRat 1))⟩,
            ⟨"B", "Bn", some "B", some 2, some 1000, some (some (ERat.ofRat 2))⟩]).length
        = 5 ∧
      (binsOf "quantiles"
          [⟨"A", "An", some "A", some 1, some 1000, some (some (ERat.ofRat 1))⟩,
            ⟨"B", "Bn", some "B", some 2, some 1000, some (some (ERat.ofRat 2))⟩]).Chain'
        (· ≤ ·) :=
  classify_monotone_buckets
    [⟨"A", "An", some "A", some 1, some 1000, some (some (ERat.ofRat 1))⟩,
      ⟨"B", "Bn", some "B", some 2, some 1000, some (some (ERat.ofRat 2))⟩]
    "quantiles" (Or.inl rfl) 0 1
    ⟨"A", "An", some "A", some 1, some 1000, some (some (ERat.ofRat 1))⟩
    ⟨"B", "Bn", some "B", some 2, some 1000, some (some (ERat.ofRat 2))⟩
    (ERat.ofRat 1) (ERat.ofRat 2) rfl rfl rfl rfl (by with_unfolding_all decide)

theorem updateMap_missing_rate_null_class_witness :
    ∃ cl,
      (updateMap ⟨[], [⟨"05004", "Cn"⟩]⟩ "Viridis" [] "quantiles").2.clase = some cl ∧
      cl[0]? = some none ∧
      (⟨"05004", "Cn", none, none, none, none⟩ : JRow) ∈
        (updateMap ⟨[], [⟨"05004", "Cn"⟩]⟩ "Viridis" [] "quantiles").2.rows ∧
      ∀ x ∈ dropna (updateMap ⟨[], [⟨"05004", "Cn"⟩]⟩ "Viridis" [] "quantiles").2.rows,
        ∃ r, r ∈ (updateMap ⟨[], [⟨"05004", "Cn"⟩]⟩ "Viridis" [] "quantiles").2.rows ∧
          r.tasa = some x :=
  updateMap_missing_rate_null_class ⟨[], [⟨"05004", "Cn"⟩]⟩ "Viridis" [] "quantiles"
    (Or.inl rfl) 0 ⟨"05004", "Cn", none, none, none, none⟩ rfl rfl

theorem zero_population_rate_witness :
    (⟨"Z", 1, 0, some ⊤⟩ : RRow).tasa_x_mil = some ⊤ ∧
    ∃ cl,
      classify "quantiles" [⟨"Z", "Zn", some "Z", some 1, some 0, some (some ⊤)⟩] =
        some cl ∧
      cl[0]? = some (some (findBin
        (binsOf "quantiles" [⟨"Z", "Zn", some "Z", some 1, some 0, some (some ⊤)⟩])
        ⊤)) ∧
      (⊤ : ERat) ∈ dropna [⟨"Z", "Zn", some "Z", some 1, some 0, some (some ⊤)⟩] := by
  have h := zero_population_rate [⟨"Z", 2005, 1, 0⟩] ⟨"Z", 1, 0, some ⊤⟩
    (by with_unfolding_all decide) rfl
  exact ⟨h.2.1 (by norm_num),
    h.2.2 [⟨"Z", "Zn", some "Z", some 1, some 0, some (some ⊤)⟩] "quantiles"
      (Or.inl rfl) 0 ⟨"Z", "Zn", some "Z", some 1, some 0, some (some ⊤)⟩ rfl rfl⟩
